import Mathlib

set_option maxHeartbeats 1000000
set_option maxRecDepth 100000

deriving instance DecidableEq for Except

/-!
Shallow embedding of the secure archive ingestion pipeline of the mcp-server
repository: the ZipHandler (structural validation, per-entry validation, path
sanitization via the sanitize-filename dependency, bounded extraction loop)
and the ContextManager (persisted approval records).  Strings are modelled as
Lean strings / lists of unicode scalar characters, machine numbers as Nat,
the JS floating division used in the bomb-ratio check as an explicit
NaN / Infinity / rational value, and the filesystem touched by extraction as
an explicit state threaded through the extraction loop.
-/

/-- Splits a character list at every occurrence of the separator, JS
String.split semantics: the empty list yields one empty field, a trailing
separator yields a trailing empty field. -/
def splitOnChar (sep : Char) : List Char → List (List Char)
  | [] => [[]]
  | c :: t =>
    let r := splitOnChar sep t
    if c = sep then [] :: r
    else
      match r with
      | [] => [[c]]
      | h :: t2 => (c :: h) :: t2

/-- Decides whether the first list occurs as a contiguous sublist of the
second, JS String.includes semantics. -/
def containsSub (needle : List Char) : List Char → Bool
  | [] => needle.isEmpty
  | c :: t => needle.isPrefixOf (c :: t) || containsSub needle t

/-- Character class of the illegalRe regex of the sanitize-filename npm
package: slash, question mark, angle brackets, backslash, colon, star, pipe,
double quote. -/
def isIllegalChar (c : Char) : Bool :=
  c = '/' || c = '?' || c = '<' || c = '>' || c = '\\' || c = ':' || c = '*' ||
    c = '|' || c = '"'

/-- Character class of the controlRe regex of sanitize-filename: code points
0x00-0x1f and 0x80-0x9f. -/
def isCtrlChar (c : Char) : Bool :=
  c.toNat ≤ 0x1f || (0x80 ≤ c.toNat && c.toNat ≤ 0x9f)

/-- Dot or space, the character class of the windowsTrailingRe regex. -/
def isDotSpace (c : Char) : Bool := c = '.' || c = ' '

/-- Replaces every character matching the class with the replacement string,
the behavior of String.replace with a global single-character-class regex. -/
def replAll (p : Char → Bool) (r : List Char) : List Char → List Char
  | [] => []
  | c :: t => if p c then r ++ replAll p r t else c :: replAll p r t

/-- The reservedRe step of sanitize-filename: a nonempty all-dots string is
replaced wholesale by the replacement. -/
def resRepl (r : List Char) (s : List Char) : List Char :=
  if !s.isEmpty && s.all (fun c => c = '.') then r else s

def isDigitChar (c : Char) : Bool := '0' ≤ c && c ≤ '9'

/-- Characters matched by an unflagged dot in a JS regex: everything except
the four line terminators. -/
def dotMatchable (c : Char) : Bool :=
  !(c = Char.ofNat 10 || c = Char.ofNat 13 || c = Char.ofNat 0x2028 ||
    c = Char.ofNat 0x2029)

/-- Matches the optional tail of the windowsReservedRe regex: either nothing,
or a dot followed by dot-matchable characters up to the end of the string. -/
def winRest : List Char → Bool
  | [] => true
  | c :: t => c = '.' && t.all dotMatchable

/-- Whole-string match of windowsReservedRe against an already lowercased
string: a reserved device name (con, prn, aux, nul, or com/lpt plus one
digit) optionally followed by a dot and a dot-matchable rest. -/
def winMatchLower (l : List Char) : Bool :=
  ((l.take 3 = ['c', 'o', 'n'] || l.take 3 = ['p', 'r', 'n'] ||
    l.take 3 = ['a', 'u', 'x'] || l.take 3 = ['n', 'u', 'l']) &&
      winRest (l.drop 3)) ||
  ((l.take 3 = ['c', 'o', 'm'] || l.take 3 = ['l', 'p', 't']) &&
    (match l.drop 3 with
     | d :: t => isDigitChar d && winRest t
     | [] => false))

/-- Case-insensitive whole-string match of windowsReservedRe. -/
def winMatch (s : List Char) : Bool := winMatchLower (s.map Char.toLower)

/-- The windowsReservedRe step: whole-string replacement when matched. -/
def winresRepl (r : List Char) (s : List Char) : List Char :=
  if winMatch s then r else s

/-- Drops the maximal trailing run of dots and spaces. -/
def dropTrailingDS (s : List Char) : List Char :=
  (s.reverse.dropWhile isDotSpace).reverse

/-- The string ends with a dot or a space. -/
def hasTrailingDS (s : List Char) : Bool :=
  match s.getLast? with
  | some c => isDotSpace c
  | none => false

/-- The windowsTrailingRe step: the maximal trailing run of dots and spaces
is replaced by the replacement string. -/
def trailRepl (r : List Char) (s : List Char) : List Char :=
  if hasTrailingDS s then dropTrailingDS s ++ r else s

/-- UTF-8 byte length of a character list. -/
def utf8Len (s : List Char) : Nat := (s.map Char.utf8Size).sum

/-- Greedy prefix of whole characters whose total UTF-8 size fits the byte
budget: the truncate-utf8-bytes dependency of sanitize-filename. -/
def takeBytes : Nat → List Char → List Char
  | _, [] => []
  | b, c :: t => if c.utf8Size ≤ b then c :: takeBytes (b - c.utf8Size) t else []

/-- One pass of the internal sanitize function of the sanitize-filename npm
package with the given replacement string: illegal characters, control
characters, the all-dots reserved form, Windows reserved device names, and
trailing dots or spaces are replaced, then the result is truncated to 255
UTF-8 bytes. -/
def sfPass (r : List Char) (s : List Char) : List Char :=
  takeBytes 255
    (trailRepl r (winresRepl r (resRepl r
      (replAll isCtrlChar r (replAll isIllegalChar r s)))))

/-- The exported sanitize-filename function as called by the handler with
options replacement underscore: one pass with the underscore replacement
followed by one pass with the empty replacement. -/
def sanitizeNpm (s : List Char) : List Char := sfPass [] (sfPass ['_'] s)

/-- The filter the handler applies to sanitized components: JS truthiness
plus the two dot forms. -/
def goodComp (c : List Char) : Bool :=
  !c.isEmpty && c ≠ ['.'] && c ≠ ['.', '.']

/-- JS Array.join with a one-character separator. -/
def joinSep (sep : Char) : List (List Char) → List Char
  | [] => []
  | [x] => x
  | x :: y :: t => x ++ sep :: joinSep sep (y :: t)

/-- ZipHandler.sanitizeFilePath: split the entry name on slashes, run every
component through sanitize-filename with underscore replacement, drop
components that are empty or a dot form, rejoin with slashes, and fall back
to a fixed name when nothing remains. -/
def sanitizeFilePath (s : String) : String :=
  let kept := ((splitOnChar '/' s.data).map sanitizeNpm).filter goodComp
  if kept.isEmpty then "sanitized_file" else String.mk (joinSep '/' kept)

/-- One member of an opened archive, as read from the central directory by
adm-zip: the raw attacker-controlled name, the directory flag, the declared
uncompressed and compressed sizes from the header, and the number of bytes
getData actually yields after decompression (a hostile archive may declare
sizes that do not match the stream). -/
structure ZEntry where
  entryName : String
  isDirectory : Bool
  headerSize : Nat
  headerCompressedSize : Nat
  dataLen : Nat
deriving DecidableEq, Repr

/-- Suffix of the character list after the last slash, the basename step of
path.extname. -/
def afterLastSlash (s : List Char) : List Char :=
  (s.reverse.takeWhile (fun c => c ≠ '/')).reverse

/-- Node path.extname on the basename: the suffix from the last dot, except
that a dot in first position or the bare double-dot component yields the
empty extension. -/
def extnameJs (s : List Char) : List Char :=
  let base := afterLastSlash s
  if base = ['.', '.'] then []
  else
    let tailLen := (base.reverse.takeWhile (fun c => c ≠ '.')).length
    if tailLen = base.length then []
    else
      let i := base.length - tailLen - 1
      if i = 0 then [] else base.drop i

/-- The traversal test of ZipHandler.validateZipEntry: the raw name contains
a double dot, contains a backslash, or starts with a slash. -/
def traversalB (s : String) : Bool :=
  containsSub ['.', '.'] s.data || containsSub ['\\'] s.data ||
    ['/'].isPrefixOf s.data

/-- Extension allowlist of the handler. -/
def allowedExtensions : List String :=
  [".js", ".ts", ".json", ".md", ".txt", ".yml", ".yaml", ".csv", ".xml"]

/-- ZipHandler.validateZipEntry: traversal pattern in the raw name, then a
case-insensitive extension allowlist (an empty extension passes), then the
declared per-entry size cap of 10 MiB; the reason string of the first failed
check is returned. -/
def validateZipEntry (e : ZEntry) : Option String :=
  if traversalB e.entryName then some "Path traversal attempt detected"
  else
    let ext := (extnameJs e.entryName.data).map Char.toLower
    if !ext.isEmpty && !allowedExtensions.contains (String.mk ext) then
      some ("File type not allowed: " ++ String.mk ext)
    else if e.headerSize > 10485760 then some "File too large"
    else none

/-- Value of a JS floating-point expression as far as the bomb check needs
it: not-a-number, positive infinity, or an exact rational. -/
inductive JsNum where
  | nan : JsNum
  | inf : JsNum
  | val : ℚ → JsNum
deriving DecidableEq

/-- JS division of two nonnegative integral numbers: zero over zero is NaN,
positive over zero is Infinity, otherwise the exact quotient (the operand
range of the handler keeps IEEE doubles exact enough that the comparison
against 100 agrees with the rational one). -/
def jsDivN (u c : Nat) : JsNum :=
  if c = 0 then (if u = 0 then JsNum.nan else JsNum.inf)
  else JsNum.val ((u : ℚ) / (c : ℚ))

/-- JS greater-than against a finite threshold: false for NaN, true for
Infinity. -/
def jsGt (x : JsNum) (t : ℚ) : Bool :=
  match x with
  | JsNum.nan => false
  | JsNum.inf => true
  | JsNum.val q => decide (t < q)

/-- Sum of declared uncompressed sizes over the non-directory entries. -/
def sumUncompressed (entries : List ZEntry) : Nat :=
  ((entries.filter (fun e => !e.isDirectory)).map (fun e => e.headerSize)).sum

/-- Sum of declared compressed sizes over the non-directory entries. -/
def sumCompressed (entries : List ZEntry) : Nat :=
  ((entries.filter (fun e => !e.isDirectory)).map
    (fun e => e.headerCompressedSize)).sum

/-- Aggregate extraction budget of the handler, 100 MiB. -/
def maxExtractedSize : Nat := 104857600

/-- ZipHandler.validateZipContents: empty archive, member-count cap of 1000,
the compression-ratio bomb check on the summed declared sizes of the
non-directory entries (a JS float division compared against 100), and the
aggregate declared-size budget; the reason of the first failed check is
returned. -/
def validateZipContents (entries : List ZEntry) : Option String :=
  if entries.length = 0 then some "ZIP file is empty"
  else if entries.length > 1000 then
    some "ZIP contains too many files (max: 1000)"
  else if jsGt (jsDivN (sumUncompressed entries) (sumCompressed entries)) 100 then
    some "Suspicious compression ratio (possible zip bomb)"
  else if sumUncompressed entries > maxExtractedSize then
    some "Total uncompressed size exceeds limit (104857600 bytes)"
  else none

/-- Filesystem state touched by extraction: existing directories and regular
files with their byte sizes. -/
structure FS where
  dirs : List String
  files : List (String × Nat)
deriving DecidableEq, Repr

def fileExists (fs : FS) (p : String) : Bool :=
  (fs.files.find? (fun f => f.1 = p)).isSome

def writeF (fs : FS) (p : String) (n : Nat) : FS :=
  if fileExists fs p then
    { fs with files := fs.files.map (fun f => if f.1 = p then (p, n) else f) }
  else { fs with files := fs.files ++ [(p, n)] }

/-- One filesystem effect of the extraction loop, in program order. -/
inductive FsEvent where
  | mkdirp : String → FsEvent
  | write : String → Nat → FsEvent
deriving DecidableEq, Repr

/-- Node path.dirname: everything before the last slash, or a dot when there
is no slash. -/
def dirnameJs (s : String) : String :=
  if containsSub ['/'] s.data then
    String.mk ((s.data.reverse.dropWhile (fun c => c ≠ '/')).tail.reverse)
  else "."

/-- Options of the extract operation that the loop consults. -/
structure ExtractOpts where
  overwrite : Bool
deriving DecidableEq, Repr

/-- State accumulated by the extraction loop apart from the warnings: the
filesystem, the sanitized relative paths written so far, the running byte
total, and the ordered effect trace. -/
structure Core where
  fs : FS
  extractedFiles : List String
  totalSize : Nat
  events : List FsEvent
deriving DecidableEq, Repr

/-- One iteration of the extraction loop of ZipHandler.performExtraction on a
single entry: directories are skipped silently; an entry failing
validateZipEntry is skipped with one warning; otherwise the name is
sanitized, the destination is the sanitized path under the root, an existing
destination without the overwrite option is skipped with one warning, and
otherwise the parent directory is created if missing and the decompressed
bytes are written; after a successful write the running total is bumped and
checked against the aggregate budget, but the error thrown on excess is
caught by the same per-entry catch and recorded as one more warning, so the
loop continues. -/
def stepWarn (root : String) (opts : ExtractOpts) (c : Core) (e : ZEntry) :
    Core × List String :=
  if e.isDirectory then (c, [])
  else
    match validateZipEntry e with
    | some r => (c, ["Skipped " ++ e.entryName ++ ": " ++ r])
    | none =>
      let sp := sanitizeFilePath e.entryName
      let outPath := root ++ "/" ++ sp
      if fileExists c.fs outPath && !opts.overwrite then
        (c, ["Skipped " ++ e.entryName ++ ": File already exists"])
      else
        let d := dirnameJs outPath
        let mkEv : List FsEvent :=
          if c.fs.dirs.contains d then [] else [FsEvent.mkdirp d]
        let fs1 : FS :=
          if c.fs.dirs.contains d then c.fs
          else { c.fs with dirs := c.fs.dirs ++ [d] }
        let fs2 := writeF fs1 outPath e.dataLen
        let ts := c.totalSize + e.dataLen
        let c2 : Core :=
          { fs := fs2
            extractedFiles := c.extractedFiles ++ [sp]
            totalSize := ts
            events := c.events ++ mkEv ++ [FsEvent.write outPath e.dataLen] }
        if ts > maxExtractedSize then
          (c2, ["Failed to extract " ++ e.entryName ++
            ": Total extracted size exceeds limit (104857600 bytes)"])
        else (c2, [])

/-- The extraction loop over the entry list, collecting warnings in program
order. -/
def runEntries (root : String) (opts : ExtractOpts) (c : Core) :
    List ZEntry → Core × List String
  | [] => (c, [])
  | e :: t =>
    let s1 := stepWarn root opts c e
    let s2 := runEntries root opts s1.1 t
    (s2.1, s1.2 ++ s2.2)

/-- Result record of a completed extraction, ExtractResult of the source: the
warnings field is absent when no warning accrued. -/
structure ExtractResult where
  success : Bool
  message : String
  extractedFiles : List String
  totalFiles : Nat
  totalSize : Nat
  warnings : Option (List String)
deriving DecidableEq, Repr

/-- ZipHandler.performExtraction on an opened archive: the resolved
extraction root is created first (recursively) when missing, then
validateZipContents runs and a failure is thrown as an error carrying the
reason, then the loop runs over all entries and a success result is always
returned with the accumulated outcome. -/
def performExtraction (fs0 : FS) (root : String) (opts : ExtractOpts)
    (entries : List ZEntry) : Except String ExtractResult × FS × List FsEvent :=
  let pre : FS × List FsEvent :=
    if fs0.dirs.contains root then (fs0, [])
    else ({ fs0 with dirs := fs0.dirs ++ [root] }, [FsEvent.mkdirp root])
  match validateZipContents entries with
  | some r => (Except.error r, pre.1, pre.2)
  | none =>
    let run := runEntries root opts ⟨pre.1, [], 0, pre.2⟩ entries
    (Except.ok
      { success := true
        message := "Successfully extracted " ++
          toString run.1.extractedFiles.length ++ " files"
        extractedFiles := run.1.extractedFiles
        totalFiles := entries.length
        totalSize := run.1.totalSize
        warnings := if run.2.isEmpty then none else some run.2 },
      run.1.fs, run.1.events)

/-- Outcome shape returned to the tool caller. -/
structure ToolRes where
  success : Bool
  message : String
deriving DecidableEq, Repr

/-- ZipHandler.extractZip after the file-existence and file-security gates
have passed and the archive has been opened: a reason thrown by structural
validation is caught and surfaced as a failure result with the wrapped
message, a completed loop is surfaced with its own success flag and
message. -/
def extractZip (fs0 : FS) (root : String) (opts : ExtractOpts)
    (entries : List ZEntry) : ToolRes × FS :=
  match performExtraction fs0 root opts entries with
  | (Except.error r, fs1, _) =>
    ({ success := false, message := "Extraction failed: " ++ r }, fs1)
  | (Except.ok res, fs1, _) =>
    ({ success := res.success, message := res.message }, fs1)

def fsEmpty : FS := ⟨[], []⟩

/-- A write effect lands under the extraction root through a relative path
every slash-separated segment of which is nonempty and not a dot form, so
the resolved destination cannot leave the root; directory-creation effects
carry no payload for this predicate. -/
def goodWrite (root : String) : FsEvent → Prop
  | FsEvent.write p _ =>
    ∃ rel : String, p = root ++ "/" ++ rel ∧
      ∀ seg ∈ splitOnChar '/' rel.data, goodComp seg = true
  | FsEvent.mkdirp _ => True

/-- One persisted approval record, ContextItem of the source; timestamps are
modelled as the millisecond instants the ISO strings of the source denote,
and an absent metadata bag as the empty association list. -/
structure CtxItem where
  id : String
  name : String
  type : String
  status : String
  created : Nat
  updated : Nat
  size : Nat
  fileCount : Option Nat
  metadata : List (String × String)
deriving DecidableEq, Repr

/-- In-memory map of the ContextManager together with the persisted file; the
list order is JS Map insertion order. -/
structure StoreState where
  mem : List CtxItem
  disk : List CtxItem
deriving DecidableEq, Repr

def lookupCtx (l : List CtxItem) (id : String) : Option CtxItem :=
  l.find? (fun c => c.id = id)

/-- JS Map.set: an existing key keeps its position, a new key is appended. -/
def setCtx : List CtxItem → String → CtxItem → List CtxItem
  | [], _, c => [c]
  | x :: t, id, c => if x.id = id then c :: t else x :: setCtx t id c

/-- JS object spread plus one key: an existing key keeps its position with
the new value, a new key is appended. -/
def setMeta : List (String × String) → String → String → List (String × String)
  | [], k, v => [(k, v)]
  | (a, b) :: t, k, v =>
    if a = k then (a, v) :: t else (a, b) :: setMeta t k v

def getMeta (m : List (String × String)) (k : String) : Option String :=
  (m.find? (fun p => p.1 = k)).map (fun p => p.2)

/-- ContextManager.saveContexts: the in-memory collection is serialized to
the persisted file; an I/O failure (saveOk false) is caught inside the
method and only logged, so the caller proceeds and the persisted file keeps
its previous contents. -/
def saveContexts (s : StoreState) (saveOk : Bool) : StoreState :=
  if saveOk then { s with disk := s.mem } else s

/-- ContextManager.markApproved: an unknown id returns a not-found failure
without touching any state; a known id has its status overwritten with the
requested terminal value and its updated timestamp set to now, a truthy
reason is merged into the metadata under the approvalReason key, the record
is stored back and the collection saved, and a success result is returned
regardless of whether the save succeeded. -/
def markApproved (s : StoreState) (context_id : String) (approved : Bool)
    (reason : Option String) (now : Nat) (saveOk : Bool) :
    ToolRes × StoreState :=
  match lookupCtx s.mem context_id with
  | none =>
    ({ success := false, message := "Context not found: " ++ context_id }, s)
  | some c =>
    let c1 := { c with
      status := if approved then "approved" else "rejected"
      updated := now }
    let c2 :=
      match reason with
      | some r =>
        if r ≠ "" then { c1 with metadata := setMeta c1.metadata "approvalReason" r }
        else c1
      | none => c1
    let s1 := saveContexts { s with mem := setCtx s.mem context_id c2 } saveOk
    ({ success := true
       message := "Context " ++ (if approved then "approved" else "rejected") ++
         " successfully" }, s1)

/-- ContextManager.createContext: a fresh record in pending state with the
supplied generated id and current instant, inserted into the map and saved;
the id is returned to the caller whether or not the save succeeded. -/
def createContext (s : StoreState) (id name type : String) (size : Nat)
    (fileCount : Option Nat) (now : Nat) (saveOk : Bool) :
    String × StoreState :=
  let c : CtxItem :=
    { id := id, name := name, type := type, status := "pending",
      created := now, updated := now, size := size, fileCount := fileCount,
      metadata := [] }
  (id, saveContexts { s with mem := setCtx s.mem id c } saveOk)

/-- Filter argument of ContextManager.getContexts. -/
structure CtxFilter where
  status : Option String
  type : Option String
  search : Option String
  limit : Option Nat
  offset : Option Nat
deriving DecidableEq, Repr

def lowerL (s : String) : List Char := s.data.map Char.toLower

/-- Stable insertion of one record into a list sorted by created descending:
the record goes before the first strictly older record, after records with
the same instant (JS stable sort with the created-difference comparator). -/
def insertDesc (c : CtxItem) : List CtxItem → List CtxItem
  | [] => [c]
  | y :: t => if c.created < y.created then y :: insertDesc c t else c :: y :: t

/-- Stable sort by created descending. -/
def sortByCreatedDesc : List CtxItem → List CtxItem
  | [] => []
  | c :: t => insertDesc c (sortByCreatedDesc t)

/-- ContextManager.getContexts: the status filter applies only when the
field is truthy and not the all sentinel, likewise the type filter; the
search filter applies when truthy, lowercasing both sides and testing
substring containment against the name; survivors are sorted by created
descending, total is taken before pagination, and the slice uses JS
or-defaulting, so an absent or zero offset is zero and an absent or zero
limit is twenty. -/
def getContexts (contexts : List CtxItem) (f : CtxFilter) :
    List CtxItem × Nat :=
  let l1 :=
    match f.status with
    | some v => if v ≠ "" && v ≠ "all" then contexts.filter (fun c => c.status = v)
                else contexts
    | none => contexts
  let l2 :=
    match f.type with
    | some v => if v ≠ "" && v ≠ "all" then l1.filter (fun c => c.type = v)
                else l1
    | none => l1
  let l3 :=
    match f.search with
    | some q => if q ≠ "" then l2.filter (fun c => containsSub (lowerL q) (lowerL c.name))
                else l2
    | none => l2
  let sorted := sortByCreatedDesc l3
  let off := match f.offset with | some o => o | none => 0
  let lim := match f.limit with | some l => if l = 0 then 20 else l | none => 20
  ((sorted.drop off).take lim, sorted.length)

/-- The list operation exactly as claim C8 words it, with no sentinel or
falsiness handling: a present status or type field always filters by
equality, a present search field always filters by lowercased substring,
a present limit or offset is always used as given, defaults apply only when
the field is absent. -/
def listClaimLiteral (contexts : List CtxItem) (f : CtxFilter) :
    List CtxItem × Nat :=
  let keep : CtxItem → Bool := fun c =>
    (match f.status with | some v => c.status = v | none => true) &&
    (match f.type with | some v => c.type = v | none => true) &&
    (match f.search with
     | some q => containsSub (lowerL q) (lowerL c.name)
     | none => true)
  let sorted := sortByCreatedDesc (contexts.filter keep)
  ((sorted.drop (f.offset.getD 0)).take (f.limit.getD 20), sorted.length)

/-- Amended status criterion of the list claim: a record survives when no
status is requested, the requested status is empty or the all sentinel, or
the record carries the requested status. -/
def statusKeep (st : Option String) (c : CtxItem) : Bool :=
  match st with
  | some v => if v = "" || v = "all" then true else c.status = v
  | none => true

/-- Amended type criterion of the list claim, mirror of the status one. -/
def typeKeep (ty : Option String) (c : CtxItem) : Bool :=
  match ty with
  | some v => if v = "" || v = "all" then true else c.type = v
  | none => true

/-- Amended search criterion of the list claim: a record survives when no
search term is given, the term is empty, or the lowercased term occurs in
the lowercased name. -/
def searchKeep (se : Option String) (c : CtxItem) : Bool :=
  match se with
  | some q => if q = "" then true else containsSub (lowerL q) (lowerL c.name)
  | none => true

/-- The list operation as claim C8 must be amended to match the code: one
combined filtering pass over status, type and search in which a status or
type value that is empty or the all sentinel is skipped and an empty search
is skipped, the stable sort by created descending, total before pagination,
and a slice whose offset defaults to zero when absent and whose limit
defaults to twenty when absent or zero. -/
def listClaim (contexts : List CtxItem) (f : CtxFilter) :
    List CtxItem × Nat :=
  let sorted := sortByCreatedDesc (contexts.filter (fun c =>
    statusKeep f.status c && typeKeep f.type c && searchKeep f.search c))
  let lim := match f.limit with | some l => if l = 0 then 20 else l | none => 20
  ((sorted.drop (f.offset.getD 0)).take lim, sorted.length)

/-- One mutation of the context store, with the nondeterministic inputs (the
generated id, the clock, the save outcome) made explicit. -/
inductive StoreOp where
  | mkCreate (id name type : String) (size : Nat) (fc : Option Nat) (now : Nat)
      (ok : Bool) : StoreOp
  | mkApprove (id : String) (app : Bool) (reason : Option String) (now : Nat)
      (ok : Bool) : StoreOp

def applyOp (s : StoreState) : StoreOp → StoreState
  | StoreOp.mkCreate id name type size fc now ok =>
    (createContext s id name type size fc now ok).2
  | StoreOp.mkApprove id app reason now ok =>
    (markApproved s id app reason now ok).2

def runOps (s : StoreState) : List StoreOp → StoreState
  | [] => s
  | op :: t => runOps (applyOp s op) t

/-- Ids handed out by the create calls of a trace. -/
def createdIds (ops : List StoreOp) : List String :=
  ops.filterMap (fun op =>
    match op with
    | StoreOp.mkCreate id _ _ _ _ _ _ => some id
    | StoreOp.mkApprove _ _ _ _ _ => none)

def emptyStore : StoreState := ⟨[], []⟩

/-- Entry name of 256 bytes whose 255-byte truncation inside
sanitize-filename exposes a Windows reserved device name: the leading
con plus a space blocks the reserved-name match on the full string, the
truncation drops the final b leaving a trailing dot run, and the second
sanitize pass strips that run, leaving the bare reserved word con. -/
def c4Long : String := "con " ++ String.mk (List.replicate 251 '.') ++ "b"

/-- Archive used to exhibit the swallowed streaming budget check: three
entries whose headers declare size zero (so every upfront declared-size
check passes) but whose streams decompress to 60 MiB each. -/
def c1Archive : List ZEntry :=
  [⟨"a.txt", false, 0, 0, 62914560⟩, ⟨"b.txt", false, 0, 0, 62914560⟩,
   ⟨"c.txt", false, 0, 0, 62914560⟩]

/-- Archive used to exhibit the member-count confound of the bomb claim:
1001 non-directory entries whose declared sizes sum to 1001 uncompressed
over 0 compressed, satisfying the bomb-ratio condition. -/
def c3Archive : List ZEntry := List.replicate 1001 ⟨"a.txt", false, 1, 0, 1⟩

/-- Context record used by the store counterexamples. -/
def c5Ctx : CtxItem := ⟨"i", "n", "zip", "pending", 0, 0, 0, none, []⟩

/-- Already-approved context used by the C7 counterexample. -/
def c7Ctx : CtxItem := ⟨"i", "n", "zip", "approved", 0, 0, 0, none, []⟩

/-- C4 counterexample: the sanitizer is neither idempotent nor does it map
dot-only inputs to the fallback name.  The single dot sanitizes to an
underscore (the reservedRe step of sanitize-filename rewrites it before the
dot filter of the handler can drop it), and the 256-byte name above
sanitizes to the bare word con whose own sanitization is an underscore. -/
theorem c4_not_idempotent_and_dot_not_fallback :
    sanitizeFilePath "." = "_" ∧
    sanitizeFilePath "." ≠ "sanitized_file" ∧
    sanitizeFilePath c4Long = "con" ∧
    sanitizeFilePath (sanitizeFilePath c4Long) = "_" ∧
    sanitizeFilePath (sanitizeFilePath c4Long) ≠ sanitizeFilePath c4Long := by
  decide

/-- C1: the streaming budget check does not abort extraction.  On an archive
that passes structural validation and whose writes total 180 MiB, the
running total exceeds the 100 MiB budget already after the second write
(125829120 bytes), yet the third entry is still written, the error thrown by
the check is converted into one warning per subsequent entry by the
per-entry catch, and the overall result reports success with all three
files, contradicting the claimed fatal abort with a success-false result. -/
theorem c1_budget_not_fatal :
    validateZipContents c1Archive = none ∧
    maxExtractedSize < 62914560 + 62914560 ∧
    (extractZip fsEmpty "root" ⟨false⟩ c1Archive).1.success = true ∧
    performExtraction fsEmpty "root" ⟨false⟩ c1Archive =
      (Except.ok
        { success := true
          message := "Successfully extracted 3 files"
          extractedFiles := ["a.txt", "b.txt", "c.txt"]
          totalFiles := 3
          totalSize := 188743680
          warnings := some
            ["Failed to extract b.txt: Total extracted size exceeds limit (104857600 bytes)",
             "Failed to extract c.txt: Total extracted size exceeds limit (104857600 bytes)"] },
       ⟨["root"],
        [("root/a.txt", 62914560), ("root/b.txt", 62914560),
         ("root/c.txt", 62914560)]⟩,
       [FsEvent.mkdirp "root", FsEvent.write "root/a.txt" 62914560,
        FsEvent.write "root/b.txt" 62914560,
        FsEvent.write "root/c.txt" 62914560]) := by
  decide

/-- C2 counterexample: a directory entry whose raw name contains a double
dot is skipped by the directory branch before any validation, so it
produces no warning at all: the result of extracting the archive holding
only that entry carries an absent warnings field, refuting the claim that
every traversal-named entry yields exactly one warning. -/
theorem c2_dir_entry_no_warning :
    traversalB "../evil/" = true ∧
    performExtraction fsEmpty "root" ⟨false⟩ [⟨"../evil/", true, 0, 0, 0⟩] =
      (Except.ok
        { success := true
          message := "Successfully extracted 0 files"
          extractedFiles := []
          totalFiles := 1
          totalSize := 0
          warnings := none },
       ⟨["root"], []⟩, [FsEvent.mkdirp "root"]) := by
  decide

/-- C3 counterexample: an archive satisfying the bomb-ratio condition but
holding 1001 entries is rejected by the member-count check, which runs
first, so extract returns a failure whose message cites the file count and
is not bomb-related. -/
theorem c3_count_check_preempts_bomb :
    100 * sumCompressed c3Archive < sumUncompressed c3Archive ∧
    (extractZip fsEmpty "root" ⟨false⟩ c3Archive).1 =
      { success := false,
        message := "Extraction failed: ZIP contains too many files (max: 1000)" } ∧
    containsSub "bomb".data
      "Extraction failed: ZIP contains too many files (max: 1000)".data = false := by
  decide

/-- The JS float comparison of the bomb check agrees with the integral
condition that the summed uncompressed size strictly exceed one hundred
times the summed compressed size, across the NaN and Infinity cases. -/
theorem jsGt100_iff (u c : Nat) :
    (jsGt (jsDivN u c) 100 = true) ↔ 100 * c < u := by
  unfold jsDivN jsGt
  by_cases hc : c = 0
  · subst hc
    by_cases hu : u = 0
    · subst hu; simp
    · simp only [if_pos rfl, if_neg hu]
      simp [Nat.pos_of_ne_zero hu]
  · have hcq : (0 : ℚ) < (c : ℚ) := by exact_mod_cast Nat.pos_of_ne_zero hc
    simp only [if_neg hc, decide_eq_true_eq]
    rw [lt_div_iff₀ hcq]
    constructor
    · intro hlt
      exact_mod_cast hlt
    · intro hlt
      exact_mod_cast hlt

/-- C9: when the summed compressed size of the non-directory entries is
zero, the compression-ratio check rejects exactly when the summed
uncompressed size is positive: zero over zero is NaN, which is not greater
than the threshold, so an archive of only zero-byte stored files passes the
ratio check, while a positive sum over zero is Infinity and is rejected as a
bomb; the same equivalence holds through the whole structural validator when
the emptiness and count checks pass. -/
theorem c9_zero_compressed_nan (entries : List ZEntry)
    (h : sumCompressed entries = 0) :
    ((jsGt (jsDivN (sumUncompressed entries) (sumCompressed entries)) 100 =
      true) ↔ 0 < sumUncompressed entries) ∧
    (entries.length ≠ 0 → entries.length ≤ 1000 →
      (validateZipContents entries =
        some "Suspicious compression ratio (possible zip bomb)" ↔
        0 < sumUncompressed entries)) := by
  constructor
  · rw [h, jsGt100_iff]
    try omega
  · intro h1 h2
    unfold validateZipContents
    rw [if_neg h1, if_neg (by omega : ¬entries.length > 1000)]
    by_cases hu : 0 < sumUncompressed entries
    · rw [if_pos (by rw [h, jsGt100_iff]; omega)]
      simp [hu]
    · have hz : sumUncompressed entries = 0 := by omega
      have hg : ¬jsGt (jsDivN (sumUncompressed entries) (sumCompressed entries))
          100 = true := by
        rw [jsGt100_iff]
        omega
      rw [if_neg hg, hz]
      rw [if_neg (by unfold maxExtractedSize; omega)]
      simp

/-- C9 witness: an archive with one stored entry declaring five bytes over
zero compressed bytes is flagged by the ratio check. -/
theorem c9_zero_compressed_nan_witness :
    (jsGt (jsDivN (sumUncompressed [⟨"a.txt", false, 5, 0, 5⟩])
      (sumCompressed [⟨"a.txt", false, 5, 0, 5⟩])) 100 = true) ↔
      0 < sumUncompressed [⟨"a.txt", false, 5, 0, 5⟩] :=
  (c9_zero_compressed_nan [⟨"a.txt", false, 5, 0, 5⟩] (by decide)).1

theorem performExtraction_error (fs0 : FS) (root : String)
    (opts : ExtractOpts) (entries : List ZEntry) (r : String)
    (h : validateZipContents entries = some r) :
    performExtraction fs0 root opts entries =
      (Except.error r,
       (if fs0.dirs.contains root then fs0
        else { fs0 with dirs := fs0.dirs ++ [root] }),
       (if fs0.dirs.contains root then [] else [FsEvent.mkdirp root])) := by
  unfold performExtraction
  rw [h]
  by_cases hm : root ∈ fs0.dirs
  · simp [hm]
  · simp [hm]

/-- C10: the resolved extraction directory is created, recursively, before
structural validation runs: an archive rejected as a whole still leaves the
directory in the filesystem state, while the rejected run adds no file and
its effect trace holds no write event. -/
theorem c10_dir_created_before_validation (fs0 : FS) (root : String)
    (opts : ExtractOpts) (entries : List ZEntry) (r : String)
    (h : validateZipContents entries = some r) :
    performExtraction fs0 root opts entries =
      (Except.error r,
       (if fs0.dirs.contains root then fs0
        else { fs0 with dirs := fs0.dirs ++ [root] }),
       (if fs0.dirs.contains root then [] else [FsEvent.mkdirp root])) ∧
    (performExtraction fs0 root opts entries).2.1.files = fs0.files ∧
    (performExtraction fs0 root opts entries).2.1.dirs.contains root = true ∧
    (∀ p n, FsEvent.write p n ∉ (performExtraction fs0 root opts entries).2.2) := by
  have he := performExtraction_error fs0 root opts entries r h
  refine ⟨he, ?_, ?_, ?_⟩
  · rw [he]
    by_cases hm : root ∈ fs0.dirs
    · simp [hm]
    · simp [hm]
  · rw [he]
    by_cases hm : root ∈ fs0.dirs
    · simp [hm]
    · simp [hm]
  · intro p n
    rw [he]
    by_cases hm : root ∈ fs0.dirs
    · simp [hm]
    · simp [hm]

/-- C10 witness: the empty archive is rejected, yet the run reports the
newly created extraction directory and an effect trace holding only its
creation. -/
theorem c10_dir_created_before_validation_witness :
    performExtraction fsEmpty "root" ⟨false⟩ [] =
      (Except.error "ZIP file is empty",
       (if fsEmpty.dirs.contains "root" then fsEmpty
        else { fsEmpty with dirs := fsEmpty.dirs ++ ["root"] }),
       (if fsEmpty.dirs.contains "root" then []
        else [FsEvent.mkdirp "root"])) :=
  (c10_dir_created_before_validation fsEmpty "root" ⟨false⟩ [] "ZIP file is empty"
    (by decide)).1

/-- C3: amended to archives within the member-count cap.  For every archive
of at most 1000 entries whose non-directory summed declared uncompressed
size strictly exceeds one hundred times the summed compressed size, extract
fails with the bomb message and no file is added to the filesystem. -/
theorem c3_bomb_rejected (fs0 : FS) (root : String) (opts : ExtractOpts)
    (entries : List ZEntry) (hlen : entries.length ≤ 1000)
    (hratio : 100 * sumCompressed entries < sumUncompressed entries) :
    (extractZip fs0 root opts entries).1 =
      { success := false
        message := "Extraction failed: Suspicious compression ratio (possible zip bomb)" } ∧
    (extractZip fs0 root opts entries).2.files = fs0.files := by
  have hne : entries.length ≠ 0 := by
    intro h0
    rw [List.length_eq_zero.mp h0] at hratio
    simp [sumUncompressed, sumCompressed] at hratio
  have hv : validateZipContents entries =
      some "Suspicious compression ratio (possible zip bomb)" := by
    unfold validateZipContents
    rw [if_neg hne, if_neg (by omega : ¬entries.length > 1000),
      if_pos ((jsGt100_iff _ _).mpr hratio)]
  have he : extractZip fs0 root opts entries =
      ({ success := false
         message := "Extraction failed: Suspicious compression ratio (possible zip bomb)" },
       if fs0.dirs.contains root then fs0
       else { fs0 with dirs := fs0.dirs ++ [root] }) := by
    unfold extractZip
    rw [performExtraction_error fs0 root opts entries _ hv]
    rfl
  rw [he]
  refine ⟨rfl, ?_⟩
  by_cases hm : root ∈ fs0.dirs
  · simp [hm]
  · simp [hm]

/-- C3 witness: a two-hundred-fold single-entry archive is rejected with the
bomb message and writes nothing. -/
theorem c3_bomb_rejected_witness :
    (extractZip fsEmpty "root" ⟨false⟩ [⟨"a.txt", false, 300, 1, 300⟩]).1 =
      { success := false
        message := "Extraction failed: Suspicious compression ratio (possible zip bomb)" } ∧
    (extractZip fsEmpty "root" ⟨false⟩ [⟨"a.txt", false, 300, 1, 300⟩]).2.files =
      fsEmpty.files :=
  c3_bomb_rejected fsEmpty "root" ⟨false⟩ [⟨"a.txt", false, 300, 1, 300⟩]
    (by decide) (by decide)

/-- C5 counterexample: when the write of the persisted collection fails
during approve, the failure is swallowed inside saveContexts, the caller
still receives a success result, and the persisted file is left stale
behind the in-memory state; likewise create still hands out the new id. -/
theorem c5_save_failure_not_surfaced :
    (markApproved ⟨[c5Ctx], [c5Ctx]⟩ "i" true none 5 false).1.success = true ∧
    (markApproved ⟨[c5Ctx], [c5Ctx]⟩ "i" true none 5 false).2.disk ≠
      (markApproved ⟨[c5Ctx], [c5Ctx]⟩ "i" true none 5 false).2.mem ∧
    (createContext emptyStore "j" "n" "zip" 0 none 0 false).1 = "j" ∧
    (createContext emptyStore "j" "n" "zip" 0 none 0 false).2.disk = [] ∧
    (createContext emptyStore "j" "n" "zip" 0 none 0 false).2.mem ≠ [] := by
  decide

/-- C7 counterexample: a reason that is supplied but empty is falsy in JS,
so approve stores nothing under the approvalReason key even though the
status is overwritten and the call succeeds. -/
theorem c7_empty_reason_not_stored :
    (markApproved ⟨[c7Ctx], [c7Ctx]⟩ "i" false (some "") 5 true).1.success = true ∧
    (lookupCtx (markApproved ⟨[c7Ctx], [c7Ctx]⟩ "i" false (some "") 5 true).2.mem
        "i").map (fun c => getMeta c.metadata "approvalReason") = some none ∧
    (lookupCtx (markApproved ⟨[c7Ctx], [c7Ctx]⟩ "i" false (some "") 5 true).2.mem
        "i").map (fun c => c.status) = some "rejected" := by
  decide

theorem saveContexts_mem (s : StoreState) (ok : Bool) :
    (saveContexts s ok).mem = s.mem := by
  cases ok <;> simp [saveContexts]

theorem lookupCtx_setCtx (l : List CtxItem) (id : String) (c : CtxItem)
    (h : c.id = id) : lookupCtx (setCtx l id c) id = some c := by
  induction l with
  | nil => simp [setCtx, lookupCtx, List.find?, h]
  | cons x t ih =>
    by_cases hx : x.id = id
    · simp [setCtx, hx, lookupCtx, List.find?, h]
    · simp only [setCtx, if_neg hx]
      unfold lookupCtx at ih ⊢
      rw [List.find?_cons_of_neg _ (by simp [hx])]
      exact ih

theorem getMeta_setMeta (m : List (String × String)) (k v : String) :
    getMeta (setMeta m k v) k = some v := by
  induction m with
  | nil => simp [setMeta, getMeta, List.find?]
  | cons p t ih =>
    by_cases hp : p.1 = k
    · cases p
      simp_all [setMeta, getMeta, List.find?]
    · cases p
      simp only [setMeta] at *
      rw [if_neg hp]
      unfold getMeta at ih ⊢
      rw [List.find?_cons_of_neg _ (by simp [hp])]
      exact ih

theorem mem_setCtx (l : List CtxItem) (id : String) (c x : CtxItem)
    (h : x ∈ setCtx l id c) : x = c ∨ x ∈ l := by
  induction l with
  | nil => simp [setCtx] at h; simp [h]
  | cons y t ih =>
    by_cases hy : y.id = id
    · simp only [setCtx, if_pos hy] at h
      rcases List.mem_cons.mp h with h1 | h1
      · exact Or.inl h1
      · exact Or.inr (List.mem_cons.mpr (Or.inr h1))
    · simp only [setCtx, if_neg hy] at h
      rcases List.mem_cons.mp h with h1 | h1
      · exact Or.inr (List.mem_cons.mpr (Or.inl h1))
      · rcases ih h1 with h2 | h2
        · exact Or.inl h2
        · exact Or.inr (List.mem_cons.mpr (Or.inr h2))

theorem lookupCtx_mem (l : List CtxItem) (id : String) (c : CtxItem)
    (h : lookupCtx l id = some c) : c ∈ l ∧ c.id = id := by
  refine ⟨List.mem_of_find?_eq_some h, ?_⟩
  have := List.find?_some h
  simpa using this

/-- Every id present in memory after a trace of operations was either there
at the start or was handed out by a create call of the trace. -/
theorem ids_applyOp (s : StoreState) (op : StoreOp) (c : CtxItem)
    (h : c ∈ (applyOp s op).mem) :
    c.id ∈ s.mem.map (fun x => x.id) ++ createdIds [op] := by
  cases op with
  | mkCreate nid nm ty sz fc now ok =>
    simp only [applyOp, createContext] at h
    rw [saveContexts_mem] at h
    rcases mem_setCtx _ _ _ _ h with h1 | h1
    · subst h1
      simp [createdIds]
    · simp [List.mem_append]
      exact Or.inl ⟨c, h1, rfl⟩
  | mkApprove nid app r now ok =>
    simp only [applyOp, markApproved] at h
    cases hl : lookupCtx s.mem nid with
    | none =>
      rw [hl] at h
      simp at h
      simp [List.mem_append]
      exact Or.inl ⟨c, h, rfl⟩
    | some c0 =>
      rw [hl] at h
      simp only at h
      rw [saveContexts_mem] at h
      rcases mem_setCtx _ _ _ _ h with h1 | h1
      · have hc0 := lookupCtx_mem _ _ _ hl
        simp [List.mem_append]
        refine Or.inl ⟨c0, hc0.1, ?_⟩
        subst h1
        cases r with
        | none => simp [hc0.2]
        | some rs =>
          by_cases hrs : rs = "" <;> simp [hrs, hc0.2]
      · simp [List.mem_append]
        exact Or.inl ⟨c, h1, rfl⟩

theorem ids_runOps (ops : List StoreOp) :
    ∀ s c, c ∈ (runOps s ops).mem →
      c.id ∈ s.mem.map (fun x => x.id) ++ createdIds ops := by
  induction ops with
  | nil =>
    intro s c h
    simp only [runOps] at h
    simp [createdIds]
    exact ⟨c, h, rfl⟩
  | cons op t ih =>
    intro s c h
    simp only [runOps] at h
    have h1 := ih (applyOp s op) c h
    rw [List.mem_append] at h1
    rcases h1 with h1 | h1
    · rw [List.mem_map] at h1
      rcases h1 with ⟨x, hx, hxid⟩
      have h2 := ids_applyOp s op x hx
      rw [List.mem_append] at h2
      rw [← hxid]
      rcases h2 with h2 | h2
      · exact List.mem_append.mpr (Or.inl h2)
      · refine List.mem_append.mpr (Or.inr ?_)
        cases op <;> simp [createdIds] at h2 ⊢ <;> simp [h2]
    · refine List.mem_append.mpr (Or.inr ?_)
      cases op <;> simp [createdIds] at h1 ⊢ <;> simp [h1]

/-- C6: approving an id that no create call of the trace ever handed out,
starting from the empty store, yields the not-found failure and leaves the
whole store state, memory and persisted file alike, unchanged. -/
theorem c6_unknown_id_unchanged (ops : List StoreOp) (id : String) (app : Bool)
    (r : Option String) (now : Nat) (ok : Bool) (h : id ∉ createdIds ops) :
    (markApproved (runOps emptyStore ops) id app r now ok).1 =
      { success := false, message := "Context not found: " ++ id } ∧
    (markApproved (runOps emptyStore ops) id app r now ok).2 =
      runOps emptyStore ops := by
  have hl : lookupCtx (runOps emptyStore ops).mem id = none := by
    apply List.find?_eq_none.mpr
    intro x hx
    have h1 := ids_runOps ops emptyStore x hx
    simp only [emptyStore, List.map_nil, List.nil_append] at h1
    simp only [decide_eq_true_eq]
    intro hxid
    rw [hxid] at h1
    exact h h1
  unfold markApproved
  rw [hl]
  exact ⟨rfl, rfl⟩

/-- C6 witness: the empty trace hands out no id, so approving any id on the
fresh store is a not-found failure with nothing changed. -/
theorem c6_unknown_id_unchanged_witness :
    (markApproved (runOps emptyStore []) "x" true none 0 true).1 =
      { success := false, message := "Context not found: x" } ∧
    (markApproved (runOps emptyStore []) "x" true none 0 true).2 =
      runOps emptyStore [] :=
  c6_unknown_id_unchanged [] "x" true none 0 true (by decide)

/-- C5: amended.  An I/O failure while writing the persisted collection
during approve or create is caught inside saveContexts and only logged: the
process does not crash, but the failure is not surfaced either — approve
still reports success and create still returns the fresh id, while the
persisted file silently keeps its previous contents. -/
theorem c5_save_failure_swallowed (s : StoreState) (id : String) (c : CtxItem)
    (app : Bool) (r : Option String) (now : Nat)
    (hc : lookupCtx s.mem id = some c) :
    ((markApproved s id app r now false).1.success = true ∧
     (markApproved s id app r now false).2.disk = s.disk) ∧
    (∀ nid nm ty sz fc,
      (createContext s nid nm ty sz fc now false).1 = nid ∧
      (createContext s nid nm ty sz fc now false).2.disk = s.disk) := by
  constructor
  · unfold markApproved
    rw [hc]
    cases r with
    | none => exact ⟨rfl, rfl⟩
    | some rs =>
      by_cases hrs : rs = "" <;> simp [hrs, saveContexts]
  · intro nid nm ty sz fc
    exact ⟨rfl, rfl⟩

/-- C5 witness: a failing save during approve of a known context still
reports success and leaves the persisted file untouched. -/
theorem c5_save_failure_swallowed_witness :
    ((markApproved ⟨[c5Ctx], [c5Ctx]⟩ "i" true none 5 false).1.success = true ∧
     (markApproved ⟨[c5Ctx], [c5Ctx]⟩ "i" true none 5 false).2.disk =
       (⟨[c5Ctx], [c5Ctx]⟩ : StoreState).disk) ∧
    (∀ nid nm ty sz fc,
      (createContext ⟨[c5Ctx], [c5Ctx]⟩ nid nm ty sz fc 5 false).1 = nid ∧
      (createContext ⟨[c5Ctx], [c5Ctx]⟩ nid nm ty sz fc 5 false).2.disk =
        (⟨[c5Ctx], [c5Ctx]⟩ : StoreState).disk) :=
  c5_save_failure_swallowed ⟨[c5Ctx], [c5Ctx]⟩ "i" c5Ctx true none 5 (by decide)

/-- C7: amended to nonempty reasons.  An approve call on a context already
in a terminal state is not blocked by any guard: the status is overwritten
with the newly requested terminal value, updated is set to the supplied
instant, the call reports success, and a supplied nonempty reason is stored
under the approvalReason key (an empty reason is falsy in JS and is
dropped). -/
theorem c7_terminal_overwritten (s : StoreState) (id : String) (c : CtxItem)
    (app : Bool) (r : Option String) (now : Nat) (ok : Bool)
    (hc : lookupCtx s.mem id = some c)
    (_hterm : c.status = "approved" ∨ c.status = "rejected") :
    (markApproved s id app r now ok).1.success = true ∧
    ∃ c2, lookupCtx (markApproved s id app r now ok).2.mem id = some c2 ∧
      c2.status = (if app then "approved" else "rejected") ∧
      c2.updated = now ∧
      ∀ rs, r = some rs → rs ≠ "" →
        getMeta c2.metadata "approvalReason" = some rs := by
  have hcid : c.id = id := (lookupCtx_mem _ _ _ hc).2
  unfold markApproved
  rw [hc]
  cases r with
  | none =>
    refine ⟨rfl, ⟨c.id, c.name, c.type, if app then "approved" else "rejected", c.created, now, c.size, c.fileCount, c.metadata⟩, ?_, rfl, rfl, ?_⟩
    · simp only [saveContexts_mem]
      exact lookupCtx_setCtx _ _ _ hcid
    · intro rs2 hrs2
      exact Option.noConfusion hrs2
  | some rs =>
    by_cases hrs : rs = ""
    · subst hrs
      refine ⟨rfl, ⟨c.id, c.name, c.type, if app then "approved" else "rejected", c.created, now, c.size, c.fileCount, c.metadata⟩, ?_, rfl, rfl, ?_⟩
      · simp only [if_neg (by simp : ¬("" : String) ≠ ""), saveContexts_mem]
        exact lookupCtx_setCtx _ _ _ hcid
      · intro rs2 hrs2 hne
        rw [Option.some_inj] at hrs2
        exact absurd hrs2.symm hne
    · refine ⟨rfl, ⟨c.id, c.name, c.type, if app then "approved" else "rejected", c.created, now, c.size, c.fileCount, setMeta c.metadata "approvalReason" rs⟩, ?_, rfl, rfl, ?_⟩
      · simp only [if_pos hrs, saveContexts_mem]
        exact lookupCtx_setCtx _ _ _ hcid
      · intro rs2 hrs2 hne
        rw [Option.some_inj] at hrs2
        rw [← hrs2]
        exact getMeta_setMeta _ _ _

/-- C7 witness: re-deciding an already approved context to rejected with a
nonempty reason succeeds, overwrites the status, stamps the new instant and
stores the reason. -/
theorem c7_terminal_overwritten_witness :
    (markApproved ⟨[c7Ctx], [c7Ctx]⟩ "i" false (some "why") 5 true).1.success =
      true ∧
    ∃ c2,
      lookupCtx (markApproved ⟨[c7Ctx], [c7Ctx]⟩ "i" false (some "why") 5
          true).2.mem "i" = some c2 ∧
      c2.status = (if false then "approved" else "rejected") ∧
      c2.updated = 5 ∧
      ∀ rs, (some "why" : Option String) = some rs → rs ≠ "" →
        getMeta c2.metadata "approvalReason" = some rs :=
  c7_terminal_overwritten ⟨[c7Ctx], [c7Ctx]⟩ "i" c7Ctx false (some "why") 5 true
    (by decide) (Or.inl rfl)

theorem filter3_comp (l : List CtxItem) (p q r : CtxItem → Bool) :
    ((l.filter p).filter q).filter r =
      l.filter (fun c => p c && q c && r c) := by
  rw [List.filter_filter, List.filter_filter]
  apply List.filter_congr
  intro a _
  cases hp : p a <;> cases hq : q a <;> cases hr : r a <;> rfl

theorem statusStage (st : Option String) (l : List CtxItem) :
    (match st with
     | some v =>
       if v ≠ "" && v ≠ "all" then l.filter (fun c => c.status = v) else l
     | none => l) = l.filter (statusKeep st) := by
  cases st with
  | none => exact (List.filter_eq_self.mpr (fun a _ => by simp [statusKeep])).symm
  | some v =>
    dsimp only
    by_cases h1 : v = ""
    · subst h1
      rw [if_neg (by simp)]
      exact (List.filter_eq_self.mpr (fun a _ => by simp [statusKeep])).symm
    · by_cases h2 : v = "all"
      · subst h2
        rw [if_neg (by simp)]
        exact (List.filter_eq_self.mpr (fun a _ => by simp [statusKeep])).symm
      · rw [if_pos (by simp [h1, h2])]
        exact List.filter_congr (fun a _ => by simp [statusKeep, h1, h2])

theorem typeStage (ty : Option String) (l : List CtxItem) :
    (match ty with
     | some v =>
       if v ≠ "" && v ≠ "all" then l.filter (fun c => c.type = v) else l
     | none => l) = l.filter (typeKeep ty) := by
  cases ty with
  | none => exact (List.filter_eq_self.mpr (fun a _ => by simp [typeKeep])).symm
  | some v =>
    dsimp only
    by_cases h1 : v = ""
    · subst h1
      rw [if_neg (by simp)]
      exact (List.filter_eq_self.mpr (fun a _ => by simp [typeKeep])).symm
    · by_cases h2 : v = "all"
      · subst h2
        rw [if_neg (by simp)]
        exact (List.filter_eq_self.mpr (fun a _ => by simp [typeKeep])).symm
      · rw [if_pos (by simp [h1, h2])]
        exact List.filter_congr (fun a _ => by simp [typeKeep, h1, h2])

theorem searchStage (se : Option String) (l : List CtxItem) :
    (match se with
     | some q =>
       if q ≠ "" then l.filter (fun c => containsSub (lowerL q) (lowerL c.name))
       else l
     | none => l) = l.filter (searchKeep se) := by
  cases se with
  | none => exact (List.filter_eq_self.mpr (fun a _ => by simp [searchKeep])).symm
  | some q =>
    dsimp only
    by_cases h1 : q = ""
    · subst h1
      rw [if_neg (by simp)]
      exact (List.filter_eq_self.mpr (fun a _ => by simp [searchKeep])).symm
    · rw [if_pos (by simp [h1])]
      exact List.filter_congr (fun a _ => by simp [searchKeep, h1])

/-- C8: amended for the JS sentinel and falsiness behavior.  For every
stored collection and filter, the list operation equals the pipeline that
filters by status, type and lowercased substring search (each skipped when
absent, empty, or the all sentinel), stably sorts by created descending,
takes total before pagination, and slices from the offset (default zero)
with the limit, defaulting to twenty when the limit is absent or zero. -/
theorem c8_list_pipeline (contexts : List CtxItem) (f : CtxFilter) :
    getContexts contexts f = listClaim contexts f := by
  unfold getContexts listClaim
  dsimp only
  rw [statusStage f.status contexts,
    typeStage f.type (contexts.filter (statusKeep f.status)),
    searchStage f.search
      ((contexts.filter (statusKeep f.status)).filter (typeKeep f.type)),
    filter3_comp]
  cases f.offset <;> rfl

/-- C8 counterexample: on a store holding one pending context, the filter
with status sentinel all and limit zero returns the context (the sentinel
skips the status filter and the falsy limit falls back to twenty), while
the pipeline worded literally as the claim filters everything out and
returns at most zero items; an empty status value likewise differs. -/
theorem c8_sentinel_and_zero_limit :
    getContexts [c5Ctx] ⟨some "all", none, none, some 0, some 0⟩ ≠
      listClaimLiteral [c5Ctx] ⟨some "all", none, none, some 0, some 0⟩ ∧
    getContexts [c5Ctx] ⟨some "", none, none, none, none⟩ ≠
      listClaimLiteral [c5Ctx] ⟨some "", none, none, none, none⟩ := by
  decide

theorem strAppend_assoc (a b c : String) : a ++ b ++ c = a ++ (b ++ c) := by
  cases a with
  | mk la =>
    cases b with
    | mk lb =>
      cases c with
      | mk lc =>
        show String.mk (la ++ lb ++ lc) = String.mk (la ++ (lb ++ lc))
        rw [List.append_assoc]

theorem mem_replAll (p : Char → Bool) (r s : List Char) (c : Char)
    (h : c ∈ replAll p r s) : (c ∈ s ∧ p c = false) ∨ c ∈ r := by
  induction s with
  | nil => simp [replAll] at h
  | cons x t ih =>
    by_cases hx : p x
    · simp only [replAll, if_pos hx] at h
      rcases List.mem_append.mp h with h1 | h1
      · exact Or.inr h1
      · rcases ih h1 with ⟨h2, h3⟩ | h2
        · exact Or.inl ⟨List.mem_cons.mpr (Or.inr h2), h3⟩
        · exact Or.inr h2
    · simp only [replAll, if_neg hx] at h
      rcases List.mem_cons.mp h with h1 | h1
      · subst h1
        exact Or.inl ⟨List.mem_cons_self _ _, by simpa using hx⟩
      · rcases ih h1 with ⟨h2, h3⟩ | h2
        · exact Or.inl ⟨List.mem_cons.mpr (Or.inr h2), h3⟩
        · exact Or.inr h2

theorem mem_resRepl (r s : List Char) (c : Char) (h : c ∈ resRepl r s) :
    c ∈ s ∨ c ∈ r := by
  unfold resRepl at h
  split at h
  · exact Or.inr h
  · exact Or.inl h

theorem mem_winresRepl (r s : List Char) (c : Char) (h : c ∈ winresRepl r s) :
    c ∈ s ∨ c ∈ r := by
  unfold winresRepl at h
  split at h
  · exact Or.inr h
  · exact Or.inl h

theorem mem_dropTrailingDS (s : List Char) (c : Char)
    (h : c ∈ dropTrailingDS s) : c ∈ s := by
  unfold dropTrailingDS at h
  rw [List.mem_reverse] at h
  have := (List.dropWhile_sublist isDotSpace (l := s.reverse)).mem h
  rwa [List.mem_reverse] at this

theorem mem_trailRepl (r s : List Char) (c : Char) (h : c ∈ trailRepl r s) :
    c ∈ s ∨ c ∈ r := by
  unfold trailRepl at h
  split at h
  · rcases List.mem_append.mp h with h1 | h1
    · exact Or.inl (mem_dropTrailingDS s c h1)
    · exact Or.inr h1
  · exact Or.inl h

theorem mem_takeBytes (b : Nat) (s : List Char) (c : Char)
    (h : c ∈ takeBytes b s) : c ∈ s := by
  induction s generalizing b with
  | nil => simp [takeBytes] at h
  | cons x t ih =>
    unfold takeBytes at h
    split at h
    · rcases List.mem_cons.mp h with h1 | h1
      · exact h1 ▸ List.mem_cons_self _ _
      · exact List.mem_cons.mpr (Or.inr (ih _ h1))
    · simp at h

theorem mem_sfPass (r s : List Char) (c : Char) (h : c ∈ sfPass r s) :
    c ∈ r ∨ (c ∈ s ∧ isIllegalChar c = false ∧ isCtrlChar c = false) := by
  unfold sfPass at h
  have h1 := mem_takeBytes _ _ _ h
  rcases mem_trailRepl _ _ _ h1 with h2 | h2
  case inr => exact Or.inl h2
  rcases mem_winresRepl _ _ _ h2 with h3 | h3
  case inr => exact Or.inl h3
  rcases mem_resRepl _ _ _ h3 with h4 | h4
  case inr => exact Or.inl h4
  rcases mem_replAll _ _ _ _ h4 with ⟨h5, hctrl⟩ | h5
  case inr => exact Or.inl h5
  rcases mem_replAll _ _ _ _ h5 with ⟨h6, hill⟩ | h6
  case inr => exact Or.inl h6
  exact Or.inr ⟨h6, hill, hctrl⟩

theorem mem_sanitizeNpm (s : List Char) (c : Char) (h : c ∈ sanitizeNpm s) :
    c = '_' ∨ (c ∈ s ∧ isIllegalChar c = false ∧ isCtrlChar c = false) := by
  unfold sanitizeNpm at h
  rcases mem_sfPass _ _ _ h with h1 | ⟨h1, hill, hctrl⟩
  · simp at h1
  · rcases mem_sfPass _ _ _ h1 with h2 | ⟨h2, _, _⟩
    · simp at h2
      exact Or.inl h2
    · exact Or.inr ⟨h2, hill, hctrl⟩

theorem noSlash_sanitizeNpm (s : List Char) : '/' ∉ sanitizeNpm s := by
  intro h
  rcases mem_sanitizeNpm _ _ h with h1 | ⟨_, hill, _⟩
  · exact absurd h1 (by decide)
  · exact absurd hill (by decide)

theorem splitOnChar_eq_single (sep : Char) (x : List Char) (hx : sep ∉ x) :
    splitOnChar sep x = [x] := by
  induction x with
  | nil => rfl
  | cons c t ih =>
    have hc : c ≠ sep := fun h => hx (h ▸ List.mem_cons_self _ _)
    have ht : sep ∉ t := fun h => hx (List.mem_cons.mpr (Or.inr h))
    unfold splitOnChar
    rw [if_neg hc, ih ht]

theorem splitOnChar_append_sep (sep : Char) (x z : List Char) (hx : sep ∉ x) :
    splitOnChar sep (x ++ sep :: z) = x :: splitOnChar sep z := by
  induction x with
  | nil =>
    show splitOnChar sep (sep :: z) = [] :: splitOnChar sep z
    conv_lhs => rw [splitOnChar]
    simp
  | cons c t ih =>
    have hc : c ≠ sep := fun h => hx (h ▸ List.mem_cons_self _ _)
    have ht : sep ∉ t := fun h => hx (List.mem_cons.mpr (Or.inr h))
    show splitOnChar sep (c :: (t ++ sep :: z)) = (c :: t) :: splitOnChar sep z
    conv_lhs => rw [splitOnChar]
    rw [if_neg hc, ih ht]

theorem splitOnChar_joinSep (sep : Char) (L : List (List Char)) (hL : L ≠ [])
    (h : ∀ l ∈ L, sep ∉ l) : splitOnChar sep (joinSep sep L) = L := by
  induction L with
  | nil => exact absurd rfl hL
  | cons x t ih =>
    cases t with
    | nil =>
      show splitOnChar sep (joinSep sep [x]) = [x]
      unfold joinSep
      exact splitOnChar_eq_single sep x (h x (List.mem_cons_self _ _))
    | cons y t2 =>
      show splitOnChar sep (x ++ sep :: joinSep sep (y :: t2)) = x :: y :: t2
      rw [splitOnChar_append_sep sep x _ (h x (List.mem_cons_self _ _))]
      rw [ih (by simp) (fun l hl => h l (List.mem_cons.mpr (Or.inr hl)))]

theorem sanitizeFilePath_components (s : String) :
    ∀ seg ∈ splitOnChar '/' (sanitizeFilePath s).data, goodComp seg = true := by
  unfold sanitizeFilePath
  by_cases hk : (((splitOnChar '/' s.data).map sanitizeNpm).filter goodComp).isEmpty
  · rw [if_pos hk]
    decide
  · rw [if_neg hk]
    have hne : ((splitOnChar '/' s.data).map sanitizeNpm).filter goodComp ≠ [] := by
      intro h0
      rw [h0] at hk
      exact hk rfl
    have hslash : ∀ l ∈ ((splitOnChar '/' s.data).map sanitizeNpm).filter goodComp,
        '/' ∉ l := by
      intro l hl
      have hmap := List.mem_of_mem_filter hl
      rcases List.mem_map.mp hmap with ⟨orig, _, horig⟩
      rw [← horig]
      exact noSlash_sanitizeNpm orig
    show ∀ seg ∈ splitOnChar '/'
      (joinSep '/' (((splitOnChar '/' s.data).map sanitizeNpm).filter goodComp)),
      goodComp seg = true
    rw [splitOnChar_joinSep '/' _ hne hslash]
    intro seg hseg
    exact List.of_mem_filter hseg

theorem stepWarn_traversal (root : String) (opts : ExtractOpts) (c : Core)
    (e : ZEntry) (hd : e.isDirectory = false) (ht : traversalB e.entryName = true) :
    stepWarn root opts c e =
      (c, ["Skipped " ++ e.entryName ++ ": Path traversal attempt detected"]) := by
  have hv : validateZipEntry e = some "Path traversal attempt detected" := by
    unfold validateZipEntry
    rw [if_pos ht]
  unfold stepWarn
  rw [hd, hv]
  show (c, [("Skipped " ++ e.entryName ++ ": ") ++ "Path traversal attempt detected"]) = (c, ["Skipped " ++ e.entryName ++ ": Path traversal attempt detected"])
  rw [strAppend_assoc]
  rfl

theorem runEntries_append (root : String) (opts : ExtractOpts) (c : Core)
    (l1 l2 : List ZEntry) :
    runEntries root opts c (l1 ++ l2) =
      ((runEntries root opts (runEntries root opts c l1).1 l2).1,
       (runEntries root opts c l1).2 ++
         (runEntries root opts (runEntries root opts c l1).1 l2).2) := by
  induction l1 generalizing c with
  | nil => simp [runEntries]
  | cons e t ih =>
    show runEntries root opts c (e :: (t ++ l2)) = _
    conv_lhs => rw [runEntries]
    conv_rhs => rw [runEntries]
    dsimp only
    rw [ih]
    simp [List.append_assoc]

theorem stepWarn_goodWrite (root : String) (opts : ExtractOpts) (c : Core)
    (e : ZEntry) (hc : ∀ ev ∈ c.events, goodWrite root ev) :
    ∀ ev ∈ (stepWarn root opts c e).1.events, goodWrite root ev := by
  intro ev hev
  unfold stepWarn at hev
  split at hev
  · exact hc ev hev
  · split at hev
    · exact hc ev hev
    · dsimp only at hev
      split at hev
      · exact hc ev hev
      · split at hev <;>
          (dsimp only at hev
           rcases List.mem_append.mp hev with h1 | h1
           · rcases List.mem_append.mp h1 with h2 | h2
             · exact hc ev h2
             · split at h2
               · simp at h2
               · simp at h2
                 rw [h2]
                 trivial
           · simp at h1
             rw [h1]
             exact ⟨sanitizeFilePath e.entryName, rfl,
               sanitizeFilePath_components e.entryName⟩)

theorem runEntries_goodWrite (root : String) (opts : ExtractOpts)
    (l : List ZEntry) :
    ∀ c, (∀ ev ∈ c.events, goodWrite root ev) →
      ∀ ev ∈ (runEntries root opts c l).1.events, goodWrite root ev := by
  induction l with
  | nil => intro c hc; exact hc
  | cons e t ih =>
    intro c hc
    unfold runEntries
    exact ih _ (stepWarn_goodWrite root opts c e hc)

theorem performExtraction_goodWrite (fs0 : FS) (root : String)
    (opts : ExtractOpts) (entries : List ZEntry) :
    ∀ ev ∈ (performExtraction fs0 root opts entries).2.2, goodWrite root ev := by
  unfold performExtraction
  cases hv : validateZipContents entries with
  | some r =>
    intro ev hev
    simp only at hev
    split at hev
    · simp at hev
    · simp at hev
      rw [hev]
      trivial
  | none =>
    intro ev hev
    simp only at hev
    refine runEntries_goodWrite root opts entries _ ?_ ev hev
    intro ev2 hev2
    split at hev2
    · simp at hev2
    · simp at hev2
      rw [hev2]
      trivial

/-- C2: amended to non-directory entries.  For every valid archive and every
non-directory entry whose raw name contains a double dot, begins with a
slash, or contains a backslash, the extraction loop skips the entry without
touching the filesystem and appends exactly one warning describing it; a
directory entry with such a name is skipped silently.  Independently, every
write effect of any extraction lands under the resolved extraction root
through a relative path with no empty or dot segments. -/
theorem c2_traversal_skipped (root : String) (opts : ExtractOpts) (e : ZEntry)
    (hd : e.isDirectory = false) (ht : traversalB e.entryName = true) :
    (∀ c, stepWarn root opts c e =
      (c, ["Skipped " ++ e.entryName ++ ": Path traversal attempt detected"])) ∧
    (∀ c0 l1 l2, runEntries root opts c0 (l1 ++ e :: l2) =
      ((runEntries root opts (runEntries root opts c0 l1).1 l2).1,
       (runEntries root opts c0 l1).2 ++
         ("Skipped " ++ e.entryName ++ ": Path traversal attempt detected") ::
         (runEntries root opts (runEntries root opts c0 l1).1 l2).2)) ∧
    (∀ fs0 entries ev, ev ∈ (performExtraction fs0 root opts entries).2.2 →
      goodWrite root ev) := by
  refine ⟨fun c => stepWarn_traversal root opts c e hd ht, ?_, ?_⟩
  · intro c0 l1 l2
    rw [runEntries_append]
    have hstep : ∀ c : Core, runEntries root opts c (e :: l2) =
        ((runEntries root opts c l2).1,
         ("Skipped " ++ e.entryName ++ ": Path traversal attempt detected") ::
           (runEntries root opts c l2).2) := by
      intro c
      conv_lhs => rw [runEntries]
      rw [stepWarn_traversal root opts c e hd ht]
      simp
    rw [hstep]
  · intro fs0 entries ev hev
    exact performExtraction_goodWrite fs0 root opts entries ev hev

/-- C2 witness: the traversal-named file entry is skipped with exactly its
one warning from any loop state. -/
theorem c2_traversal_skipped_witness :
    stepWarn "root" ⟨false⟩ ⟨fsEmpty, [], 0, []⟩ ⟨"../x.txt", false, 10, 5, 10⟩ =
      (⟨fsEmpty, [], 0, []⟩,
       ["Skipped ../x.txt: Path traversal attempt detected"]) :=
  (c2_traversal_skipped "root" ⟨false⟩ ⟨"../x.txt", false, 10, 5, 10⟩ rfl
    (by decide)).1 ⟨fsEmpty, [], 0, []⟩

theorem utf8Len_append (a b : List Char) :
    utf8Len (a ++ b) = utf8Len a + utf8Len b := by
  simp [utf8Len]

theorem utf8Len_cons (c : Char) (t : List Char) :
    utf8Len (c :: t) = c.utf8Size + utf8Len t := by
  simp [utf8Len]

theorem utf8Len_underscore : utf8Len ['_'] = 1 := rfl

theorem utf8Len_pos (s : List Char) (h : s ≠ []) : 1 ≤ utf8Len s := by
  cases s with
  | nil => exact absurd rfl h
  | cons c t =>
    have := Char.utf8Size_pos c
    rw [utf8Len_cons]
    omega

theorem replAll_id (p : Char → Bool) (r s : List Char)
    (h : ∀ c ∈ s, p c = false) : replAll p r s = s := by
  induction s with
  | nil => rfl
  | cons x t ih =>
    unfold replAll
    rw [if_neg (by simp [h x (List.mem_cons_self _ _)]),
      ih (fun c hc => h c (List.mem_cons.mpr (Or.inr hc)))]

theorem resRepl_id (r s : List Char)
    (h : (!s.isEmpty && s.all (fun c => c = '.')) ≠ true) : resRepl r s = s := by
  unfold resRepl
  rw [if_neg h]

theorem winresRepl_id (r s : List Char) (h : winMatch s = false) :
    winresRepl r s = s := by
  unfold winresRepl
  rw [h]
  rfl

theorem trailRepl_id (r s : List Char) (h : hasTrailingDS s = false) :
    trailRepl r s = s := by
  unfold trailRepl
  rw [h]
  rfl

theorem takeBytes_id (b : Nat) (s : List Char) (h : utf8Len s ≤ b) :
    takeBytes b s = s := by
  induction s generalizing b with
  | nil => rfl
  | cons c t ih =>
    rw [utf8Len_cons] at h
    have := Char.utf8Size_pos c
    unfold takeBytes
    rw [if_pos (by omega), ih (b - c.utf8Size) (by omega)]

theorem utf8Len_replAll_le (p : Char → Bool) (s : List Char) :
    utf8Len (replAll p ['_'] s) ≤ utf8Len s := by
  induction s with
  | nil => simp [replAll]
  | cons c t ih =>
    have hc := Char.utf8Size_pos c
    unfold replAll
    by_cases hp : p c
    · rw [if_pos hp, utf8Len_append]
      simp only [utf8Len_cons]
      have h1 : '_'.utf8Size = 1 := rfl
      have h2 : utf8Len ([] : List Char) = 0 := rfl
      omega
    · rw [if_neg hp]
      simp only [utf8Len_cons]
      omega

theorem resRepl_underscore_le (s : List Char) :
    utf8Len (resRepl ['_'] s) ≤ utf8Len s := by
  unfold resRepl
  split
  case isTrue h =>
    have hne : s ≠ [] := by
      intro h0
      rw [h0] at h
      simp at h
    have := utf8Len_pos s hne
    rw [utf8Len_underscore]
    omega
  case isFalse h => exact Nat.le_refl _

theorem winMatch_nil : winMatch [] = false := by decide

theorem winresRepl_underscore_le (s : List Char) :
    utf8Len (winresRepl ['_'] s) ≤ utf8Len s := by
  unfold winresRepl
  split
  case isTrue h =>
    have hne : s ≠ [] := by
      intro h0
      rw [h0, winMatch_nil] at h
      exact Bool.false_ne_true h
    have := utf8Len_pos s hne
    rw [utf8Len_underscore]
    omega
  case isFalse h => exact Nat.le_refl _

theorem dropTrailingDS_decomp (s : List Char) :
    dropTrailingDS s ++ (s.reverse.takeWhile isDotSpace).reverse = s := by
  unfold dropTrailingDS
  rw [← List.reverse_append, List.takeWhile_append_dropWhile, List.reverse_reverse]

theorem trailingRun_ne_nil (s : List Char) (h : hasTrailingDS s = true) :
    (s.reverse.takeWhile isDotSpace).reverse ≠ [] := by
  unfold hasTrailingDS at h
  rw [← List.head?_reverse] at h
  cases hr : s.reverse with
  | nil => rw [hr] at h; simp at h
  | cons c t =>
    rw [hr] at h
    simp only [List.head?_cons] at h
    rw [List.takeWhile_cons, h]
    simp

theorem trailRepl_underscore_le (s : List Char) :
    utf8Len (trailRepl ['_'] s) ≤ utf8Len s := by
  unfold trailRepl
  split
  case isTrue h =>
    have hdec := dropTrailingDS_decomp s
    have hrun := trailingRun_ne_nil s h
    have hlen : utf8Len s =
        utf8Len (dropTrailingDS s) +
          utf8Len ((s.reverse.takeWhile isDotSpace).reverse) := by
      conv_lhs => rw [← hdec]
      exact utf8Len_append _ _
    have := utf8Len_pos _ hrun
    rw [utf8Len_append, utf8Len_underscore]
    omega
  case isFalse h => exact Nat.le_refl _

theorem sfPass_underscore_eq (s : List Char) (h : utf8Len s ≤ 255) :
    sfPass ['_'] s =
      trailRepl ['_'] (winresRepl ['_'] (resRepl ['_']
        (replAll isCtrlChar ['_'] (replAll isIllegalChar ['_'] s)))) := by
  unfold sfPass
  apply takeBytes_id
  calc utf8Len (trailRepl ['_'] (winresRepl ['_'] (resRepl ['_']
        (replAll isCtrlChar ['_'] (replAll isIllegalChar ['_'] s))))) ≤
      utf8Len (winresRepl ['_'] (resRepl ['_']
        (replAll isCtrlChar ['_'] (replAll isIllegalChar ['_'] s)))) :=
      trailRepl_underscore_le _
    _ ≤ utf8Len (resRepl ['_']
        (replAll isCtrlChar ['_'] (replAll isIllegalChar ['_'] s))) :=
      winresRepl_underscore_le _
    _ ≤ utf8Len (replAll isCtrlChar ['_'] (replAll isIllegalChar ['_'] s)) :=
      resRepl_underscore_le _
    _ ≤ utf8Len (replAll isIllegalChar ['_'] s) := utf8Len_replAll_le _ _
    _ ≤ utf8Len s := utf8Len_replAll_le _ _
    _ ≤ 255 := h

theorem pipe_len_le (s : List Char) :
    utf8Len (trailRepl ['_'] (winresRepl ['_'] (resRepl ['_']
      (replAll isCtrlChar ['_'] (replAll isIllegalChar ['_'] s))))) ≤
      utf8Len s :=
  calc utf8Len (trailRepl ['_'] (winresRepl ['_'] (resRepl ['_']
        (replAll isCtrlChar ['_'] (replAll isIllegalChar ['_'] s))))) ≤
      utf8Len (winresRepl ['_'] (resRepl ['_']
        (replAll isCtrlChar ['_'] (replAll isIllegalChar ['_'] s)))) :=
      trailRepl_underscore_le _
    _ ≤ utf8Len (resRepl ['_']
        (replAll isCtrlChar ['_'] (replAll isIllegalChar ['_'] s))) :=
      winresRepl_underscore_le _
    _ ≤ utf8Len (replAll isCtrlChar ['_'] (replAll isIllegalChar ['_'] s)) :=
      resRepl_underscore_le _
    _ ≤ utf8Len (replAll isIllegalChar ['_'] s) := utf8Len_replAll_le _ _
    _ ≤ utf8Len s := utf8Len_replAll_le _ _

theorem mem_pipeI (s : List Char) (c : Char)
    (h : c ∈ trailRepl ['_'] (winresRepl ['_'] (resRepl ['_']
      (replAll isCtrlChar ['_'] (replAll isIllegalChar ['_'] s))))) :
    isIllegalChar c = false ∧ isCtrlChar c = false := by
  have hu : c = '_' → isIllegalChar c = false ∧ isCtrlChar c = false := by
    intro h0
    rw [h0]
    exact ⟨by decide, by decide⟩
  rcases mem_trailRepl _ _ _ h with h1 | h1
  case inr => exact hu (by simpa using h1)
  rcases mem_winresRepl _ _ _ h1 with h2 | h2
  case inr => exact hu (by simpa using h2)
  rcases mem_resRepl _ _ _ h2 with h3 | h3
  case inr => exact hu (by simpa using h3)
  rcases mem_replAll _ _ _ _ h3 with ⟨h4, hctrl⟩ | h4
  case inr => exact hu (by simpa using h4)
  rcases mem_replAll _ _ _ _ h4 with ⟨h5, hill⟩ | h5
  case inr => exact hu (by simpa using h5)
  exact ⟨hill, hctrl⟩

theorem hasTrailingDS_concat (x : List Char) :
    hasTrailingDS (x ++ ['_']) = false := by
  unfold hasTrailingDS
  rw [List.getLast?_concat]
  decide

theorem trailRepl_no_trailing (s : List Char) :
    hasTrailingDS (trailRepl ['_'] s) = false := by
  unfold trailRepl
  split
  case isTrue h => exact hasTrailingDS_concat _
  case isFalse h => simpa using h

theorem allDots_hasTrailing (s : List Char) (hne : s ≠ [])
    (hall : s.all (fun c => c = '.') = true) : hasTrailingDS s = true := by
  unfold hasTrailingDS
  rw [List.getLast?_eq_getLast s hne]
  have hmem := List.getLast_mem hne
  have hd : s.getLast hne = '.' := by
    have := List.all_eq_true.mp hall _ hmem
    simpa using this
  rw [hd]
  decide

theorem resCond_of_no_trailing (s : List Char) (h : hasTrailingDS s = false) :
    (!s.isEmpty && s.all (fun c => c = '.')) ≠ true := by
  intro hc
  rw [Bool.and_eq_true] at hc
  have hne : s ≠ [] := by
    intro h0
    rw [h0] at hc
    simp at hc
  rw [allDots_hasTrailing s hne hc.2] at h
  simp at h

theorem winMatch_winresRepl (s : List Char) :
    winMatch (winresRepl ['_'] s) = false := by
  unfold winresRepl
  split
  case isTrue h => decide
  case isFalse h => simpa using h

theorem dotSpace_dotMatchable (c : Char) (h : isDotSpace c = true) :
    dotMatchable c = true := by
  unfold isDotSpace at h
  rw [Bool.or_eq_true] at h
  rcases h with h | h
  · rw [decide_eq_true_eq] at h
    rw [h]
    decide
  · rw [decide_eq_true_eq] at h
    rw [h]
    decide

theorem winRest_replace_tail (u run : List Char)
    (hw : winRest (u ++ ['_']) = true) (hrun : run.all isDotSpace = true) :
    winRest (u ++ run) = true := by
  cases u with
  | nil => exact absurd hw (by decide)
  | cons a u0 =>
    have hw2 : (a = '.' && (u0 ++ ['_']).all dotMatchable) = true := hw
    rw [Bool.and_eq_true, List.all_append] at hw2
    show (a = '.' && (u0 ++ run).all dotMatchable) = true
    rw [Bool.and_eq_true, List.all_append]
    have h3 := (Bool.and_eq_true _ _).mp hw2.2
    refine ⟨hw2.1, ?_⟩
    rw [Bool.and_eq_true]
    refine ⟨h3.1, ?_⟩
    rw [List.all_eq_true]
    intro c hc
    exact dotSpace_dotMatchable c (List.all_eq_true.mp hrun c hc)

theorem winMatchLower_replace_tail (u run : List Char)
    (hw : winMatchLower (u ++ ['_']) = true)
    (hrun : run.all isDotSpace = true) :
    winMatchLower (u ++ run) = true := by
  match u with
  | [] => exact absurd hw (by decide)
  | [a] =>
    exfalso
    unfold winMatchLower at hw
    simp at hw
  | [a, b] =>
    exfalso
    unfold winMatchLower at hw
    simp at hw
  | a :: b :: c :: u0 =>
    unfold winMatchLower at hw ⊢
    simp only [List.cons_append, List.take_succ_cons, List.take_zero,
      List.drop_succ_cons, List.drop_zero] at hw ⊢
    rw [Bool.or_eq_true] at hw
    rcases hw with hw | hw
    · rw [Bool.and_eq_true] at hw
      refine Bool.or_eq_true _ _ |>.mpr (Or.inl ?_)
      rw [Bool.and_eq_true]
      exact ⟨hw.1, winRest_replace_tail u0 run hw.2 hrun⟩
    · rw [Bool.and_eq_true] at hw
      refine Bool.or_eq_true _ _ |>.mpr (Or.inr ?_)
      rw [Bool.and_eq_true]
      refine ⟨hw.1, ?_⟩
      have hm := hw.2
      cases u0 with
      | nil => exact absurd hm (by decide)
      | cons d t0 =>
        simp only [List.cons_append] at hm ⊢
        rw [Bool.and_eq_true] at hm
        rw [Bool.and_eq_true]
        exact ⟨hm.1, winRest_replace_tail t0 run hm.2 hrun⟩

theorem map_toLower_run (run : List Char) (h : run.all isDotSpace = true) :
    run.map Char.toLower = run := by
  induction run with
  | nil => rfl
  | cons c t ih =>
    rw [List.all_cons, Bool.and_eq_true] at h
    have hc : c.toLower = c := by
      have h1 := h.1
      unfold isDotSpace at h1
      rw [Bool.or_eq_true] at h1
      rcases h1 with h1 | h1
      · rw [decide_eq_true_eq] at h1
        rw [h1]
        decide
      · rw [decide_eq_true_eq] at h1
        rw [h1]
        decide
    rw [List.map_cons, hc, ih h.2]

theorem winMatch_trailRepl (s : List Char) (h : winMatch s = false) :
    winMatch (trailRepl ['_'] s) = false := by
  unfold trailRepl
  split
  case isFalse h2 => exact h
  case isTrue htr =>
    by_contra hcon
    rw [Bool.not_eq_false] at hcon
    unfold winMatch at hcon h
    rw [List.map_append] at hcon
    have hm : (['_'].map Char.toLower) = ['_'] := by decide
    rw [hm] at hcon
    have hrun_ds : ((s.reverse.takeWhile isDotSpace).reverse).all isDotSpace =
        true := by
      rw [List.all_eq_true]
      intro c hc
      rw [List.mem_reverse] at hc
      exact List.mem_takeWhile_imp hc
    have hkey := winMatchLower_replace_tail
      ((dropTrailingDS s).map Char.toLower)
      ((s.reverse.takeWhile isDotSpace).reverse) hcon hrun_ds
    have hs : s.map Char.toLower =
        (dropTrailingDS s).map Char.toLower ++
          (s.reverse.takeWhile isDotSpace).reverse := by
      conv_lhs => rw [← dropTrailingDS_decomp s]
      rw [List.map_append, map_toLower_run _ hrun_ds]
    rw [hs] at h
    rw [h] at hkey
    exact Bool.false_ne_true hkey

theorem sfPass_fixed (r s : List Char)
    (h1 : ∀ c ∈ s, isIllegalChar c = false ∧ isCtrlChar c = false)
    (h2 : (!s.isEmpty && s.all (fun c => c = '.')) ≠ true)
    (h3 : winMatch s = false)
    (h4 : hasTrailingDS s = false)
    (h5 : utf8Len s ≤ 255) : sfPass r s = s := by
  unfold sfPass
  rw [replAll_id _ _ _ (fun c hc => (h1 c hc).1),
    replAll_id _ _ _ (fun c hc => (h1 c hc).2),
    resRepl_id _ _ h2, winresRepl_id _ _ h3, trailRepl_id _ _ h4,
    takeBytes_id _ _ h5]

theorem inner_chars (s : List Char) (h : utf8Len s ≤ 255) :
    ∀ c ∈ sfPass ['_'] s, isIllegalChar c = false ∧ isCtrlChar c = false := by
  intro c hc
  rw [sfPass_underscore_eq s h] at hc
  exact mem_pipeI s c hc

theorem inner_no_trailing (s : List Char) (h : utf8Len s ≤ 255) :
    hasTrailingDS (sfPass ['_'] s) = false := by
  rw [sfPass_underscore_eq s h]
  exact trailRepl_no_trailing _

theorem inner_resCond (s : List Char) (h : utf8Len s ≤ 255) :
    (!(sfPass ['_'] s).isEmpty &&
      (sfPass ['_'] s).all (fun c => c = '.')) ≠ true :=
  resCond_of_no_trailing _ (inner_no_trailing s h)

theorem inner_winMatch (s : List Char) (h : utf8Len s ≤ 255) :
    winMatch (sfPass ['_'] s) = false := by
  rw [sfPass_underscore_eq s h]
  exact winMatch_trailRepl _ (winMatch_winresRepl _)

theorem inner_len (s : List Char) (h : utf8Len s ≤ 255) :
    utf8Len (sfPass ['_'] s) ≤ 255 := by
  rw [sfPass_underscore_eq s h]
  exact Nat.le_trans (pipe_len_le s) h

theorem sanitizeNpm_eq_inner (s : List Char) (h : utf8Len s ≤ 255) :
    sanitizeNpm s = sfPass ['_'] s := by
  unfold sanitizeNpm
  exact sfPass_fixed [] _ (inner_chars s h) (inner_resCond s h)
    (inner_winMatch s h) (inner_no_trailing s h) (inner_len s h)

theorem sanitizeNpm_idem (s : List Char) (h : utf8Len s ≤ 255) :
    sanitizeNpm (sanitizeNpm s) = sanitizeNpm s := by
  have he := sanitizeNpm_eq_inner s h
  show sfPass [] (sfPass ['_'] (sanitizeNpm s)) = sanitizeNpm s
  rw [he]
  rw [sfPass_fixed ['_'] _ (inner_chars s h) (inner_resCond s h)
    (inner_winMatch s h) (inner_no_trailing s h) (inner_len s h)]
  exact sfPass_fixed [] _ (inner_chars s h) (inner_resCond s h)
    (inner_winMatch s h) (inner_no_trailing s h) (inner_len s h)

theorem map_sanitizeNpm_fix (l : List (List Char))
    (hf : ∀ x ∈ l, sanitizeNpm x = x) : l.map sanitizeNpm = l := by
  induction l with
  | nil => rfl
  | cons x t ih =>
    rw [List.map_cons, hf x (List.mem_cons_self _ _),
      ih (fun y hy => hf y (List.mem_cons.mpr (Or.inr hy)))]

theorem sanitizeFilePath_ne_empty (s : String) : sanitizeFilePath s ≠ "" := by
  unfold sanitizeFilePath
  by_cases hk : (((splitOnChar '/' s.data).map sanitizeNpm).filter goodComp).isEmpty
  · rw [if_pos hk]
    decide
  · rw [if_neg hk]
    intro h0
    have hdat : joinSep '/'
        (((splitOnChar '/' s.data).map sanitizeNpm).filter goodComp) = [] :=
      congrArg String.data h0
    cases hkept : ((splitOnChar '/' s.data).map sanitizeNpm).filter goodComp with
    | nil =>
      rw [hkept] at hk
      exact hk rfl
    | cons x t =>
      have hx : goodComp x = true :=
        List.of_mem_filter (hkept ▸ List.mem_cons_self x t)
      have hxne : x ≠ [] := by
        intro h1
        rw [h1] at hx
        simp [goodComp] at hx
      rw [hkept] at hdat
      cases t with
      | nil => exact hxne hdat
      | cons y t2 =>
        unfold joinSep at hdat
        rcases List.append_eq_nil.mp hdat with ⟨h1, _⟩
        exact hxne h1

theorem sanitizeFilePath_idem (s : String)
    (h : ∀ comp ∈ splitOnChar '/' s.data, utf8Len comp ≤ 255) :
    sanitizeFilePath (sanitizeFilePath s) = sanitizeFilePath s := by
  have hfix : ∀ k ∈ ((splitOnChar '/' s.data).map sanitizeNpm).filter goodComp,
      sanitizeNpm k = k := by
    intro k hk
    rcases List.mem_map.mp (List.mem_of_mem_filter hk) with ⟨c, hc, hck⟩
    rw [← hck]
    exact sanitizeNpm_idem c (h c hc)
  by_cases hk0 : (((splitOnChar '/' s.data).map sanitizeNpm).filter goodComp).isEmpty
  · have hfs : sanitizeFilePath s = "sanitized_file" := by
      unfold sanitizeFilePath
      rw [if_pos hk0]
    rw [hfs]
    decide
  · have hne : ((splitOnChar '/' s.data).map sanitizeNpm).filter goodComp ≠ [] := by
      intro h0
      rw [h0] at hk0
      exact hk0 rfl
    have hfs : sanitizeFilePath s = String.mk (joinSep '/'
        (((splitOnChar '/' s.data).map sanitizeNpm).filter goodComp)) := by
      unfold sanitizeFilePath
      rw [if_neg hk0]
    have hslash : ∀ l ∈ ((splitOnChar '/' s.data).map sanitizeNpm).filter goodComp,
        '/' ∉ l := by
      intro l hl
      rcases List.mem_map.mp (List.mem_of_mem_filter hl) with ⟨c, _, hcl⟩
      rw [← hcl]
      exact noSlash_sanitizeNpm c
    have hsplit : splitOnChar '/' (sanitizeFilePath s).data =
        ((splitOnChar '/' s.data).map sanitizeNpm).filter goodComp := by
      rw [hfs]
      exact splitOnChar_joinSep '/' _ hne hslash
    have hfilter : (((splitOnChar '/' s.data).map sanitizeNpm).filter
        goodComp).filter goodComp =
        ((splitOnChar '/' s.data).map sanitizeNpm).filter goodComp :=
      List.filter_eq_self.mpr (fun k hk => List.of_mem_filter hk)
    conv_lhs => rw [sanitizeFilePath]
    rw [hsplit, map_sanitizeNpm_fix _ hfix, hfilter, if_neg hk0, ← hfs]

theorem sanitizeNpm_nil : sanitizeNpm [] = [] := by decide

theorem sanitizeNpm_dot : sanitizeNpm ['.'] = ['_'] := by decide

theorem sanitizeNpm_dotdot : sanitizeNpm ['.', '.'] = ['_'] := by decide

theorem dot_components_map (L : List (List Char))
    (h : ∀ c ∈ L, c = [] ∨ c = ['.'] ∨ c = ['.', '.']) :
    (L.map sanitizeNpm).filter goodComp =
      List.replicate ((L.filter (fun c => !c.isEmpty)).length) ['_'] := by
  induction L with
  | nil => rfl
  | cons x t ih =>
    have iht := ih (fun c hc => h c (List.mem_cons.mpr (Or.inr hc)))
    rcases h x (List.mem_cons_self _ _) with hx | hx | hx
    · subst hx
      rw [List.map_cons, sanitizeNpm_nil, List.filter_cons_of_neg (by decide),
        List.filter_cons_of_neg (by decide)]
      exact iht
    · subst hx
      rw [List.map_cons, sanitizeNpm_dot, List.filter_cons_of_pos (by decide),
        List.filter_cons_of_pos (by decide), iht]
      rfl
    · subst hx
      rw [List.map_cons, sanitizeNpm_dotdot, List.filter_cons_of_pos (by decide),
        List.filter_cons_of_pos (by decide), iht]
      rfl

theorem sanitizeFilePath_dots (s : String)
    (h : ∀ comp ∈ splitOnChar '/' s.data,
      comp = [] ∨ comp = ['.'] ∨ comp = ['.', '.']) :
    sanitizeFilePath s =
      (if ((splitOnChar '/' s.data).filter (fun c => !c.isEmpty)).length = 0
       then "sanitized_file"
       else String.mk (joinSep '/' (List.replicate
         ((splitOnChar '/' s.data).filter (fun c => !c.isEmpty)).length
         ['_']))) := by
  unfold sanitizeFilePath
  rw [dot_components_map _ h]
  dsimp only
  by_cases hn : ((splitOnChar '/' s.data).filter (fun c => !c.isEmpty)).length = 0
  · rw [hn]
    rfl
  · rw [if_neg hn]
    rw [if_neg (by
      cases hm : ((splitOnChar '/' s.data).filter (fun c => !c.isEmpty)).length with
      | zero => exact absurd hm hn
      | succ n =>
        rw [List.replicate_succ]
        simp)]

/-- C4: amended.  The entry-name sanitizer used by extraction is total and
never returns the empty string; it is idempotent on every input whose
slash-separated components each fit in 255 UTF-8 bytes (the truncation
inside sanitize-filename breaks idempotence only beyond that, as the
counterexample shows); the empty string and strings of slashes alone
resolve to the fixed fallback name, while dot and double-dot segments are
rewritten to underscore segments by the reservedRe step of the library
before the handler can drop them, so a string of dot segments resolves to
that many underscores joined by slashes, not to the fallback. -/
theorem c4_sanitizer_properties :
    (∀ s : String, sanitizeFilePath s ≠ "") ∧
    (∀ s : String, (∀ comp ∈ splitOnChar '/' s.data, utf8Len comp ≤ 255) →
      sanitizeFilePath (sanitizeFilePath s) = sanitizeFilePath s) ∧
    sanitizeFilePath "" = "sanitized_file" ∧
    (∀ s : String,
      (∀ comp ∈ splitOnChar '/' s.data,
        comp = [] ∨ comp = ['.'] ∨ comp = ['.', '.']) →
      sanitizeFilePath s =
        (if ((splitOnChar '/' s.data).filter (fun c => !c.isEmpty)).length = 0
         then "sanitized_file"
         else String.mk (joinSep '/' (List.replicate
           ((splitOnChar '/' s.data).filter (fun c => !c.isEmpty)).length
           ['_'])))) :=
  ⟨sanitizeFilePath_ne_empty, sanitizeFilePath_idem, by decide,
    sanitizeFilePath_dots⟩

/-- C4 witness: the amended properties evaluated at small concrete names:
a simple name is nonempty and idempotent, the empty string hits the
fallback, and the traversal string of two dot segments becomes two
underscores. -/
theorem c4_sanitizer_properties_witness :
    sanitizeFilePath "dir/a.txt" ≠ "" ∧
    sanitizeFilePath (sanitizeFilePath "dir/a.txt") =
      sanitizeFilePath "dir/a.txt" ∧
    sanitizeFilePath "" = "sanitized_file" ∧
    sanitizeFilePath "../.." =
      (if ((splitOnChar '/' "../..".data).filter (fun c => !c.isEmpty)).length = 0
       then "sanitized_file"
       else String.mk (joinSep '/' (List.replicate
         ((splitOnChar '/' "../..".data).filter (fun c => !c.isEmpty)).length
         ['_']))) :=
  ⟨c4_sanitizer_properties.1 "dir/a.txt",
   c4_sanitizer_properties.2.1 "dir/a.txt" (by decide),
   c4_sanitizer_properties.2.2.1,
   c4_sanitizer_properties.2.2.2 "../.." (by decide)⟩
